import Mathlib

/-!
Verification of the content-script core of the `chrome-extension-prototyping`
repository (`src/contentScript/contentScript.ts`): DOM path addressing,
element serialization, the highlight/preview state machine, the message
handler, and the reconnection logic.

Modelling conventions:
* The live DOM is a rose tree `DomNode`.  Element nodes carry a `uid : Nat`
  which embeds JavaScript reference identity (`===`): in a well-formed
  document (`DomWF`, all element uids distinct) uid equality coincides with
  reference equality.  Text and comment nodes model the non-element members
  of `childNodes`; the DOM `children` collection is the element-only filter.
* Mutable module state of the content script (`highlightedElement`,
  `previewElement`, `isActive`, the inline outline styles written by
  `applyHilight`/`clearHilight`, the click handler, reconnection counters,
  the `scrollIntoView` calls, and the emitted `DOM_ELEMENT_UPDATE` messages)
  is collected in the explicit record `PageState`; every source function that
  mutates this state becomes a `PageState → PageState` function.
* `chrome.runtime.sendMessage` of a `DOM_ELEMENT_UPDATE` is modelled by
  appending the serialized element to the `events` log.
-/

/-- A node of the live DOM.  Element nodes carry the reference-identity tag
`uid`, the (upper-case, as in the DOM) tag name, the `id` attribute (`""`
when absent, matching the falsy check in the source), the class list, a flag
telling whether the node is an `HTMLElement` (`instanceof HTMLElement` in the
source; `false` models e.g. SVG elements), and the full `childNodes` list. -/
inductive DomNode where
  | element (uid : Nat) (tagName : String) (idAttr : String)
      (classes : List String) (html : Bool) (kids : List DomNode)
  | text (content : String)
  | comment (content : String)
deriving Repr

/-- `nodeType === Node.ELEMENT_NODE`. -/
def isElementNode : DomNode → Bool
  | .element _ _ _ _ _ _ => true
  | _ => false

/-- The uid of an element node (reference identity); never applied to text or
comment nodes by the modelled code, which only compares elements. -/
def euid : DomNode → Nat
  | .element u _ _ _ _ _ => u
  | _ => 0

/-- The DOM `childNodes` collection. -/
def childNodesOf : DomNode → List DomNode
  | .element _ _ _ _ _ kids => kids
  | _ => []

/-- The DOM `children` collection: element children only. -/
def childrenOf (n : DomNode) : List DomNode :=
  (childNodesOf n).filter isElementNode

/-- The DOM `tagName` property. -/
def tagNameOf : DomNode → String
  | .element _ t _ _ _ _ => t
  | _ => ""

/-- `instanceof HTMLElement`. -/
def isHTMLElement : DomNode → Bool
  | .element _ _ _ _ h _ => h
  | _ => false

/-- Specification-level navigation: the node reached from `n` by taking the
`i`-th element child at each step.  This is the reference notion of "the
element at position `p`" used to state reachability from the root. -/
def nodeAtPath (n : DomNode) : List Nat → Option DomNode
  | [] => some n
  | i :: p =>
    match (childrenOf n)[i]? with
    | some c => nodeAtPath c p
    | none => none

/-- The body of the `for (const index of path)` loop of `findElementByPath`:
at each step take `Array.from(element.children).filter(isElement)` and move
to the indexed entry when `index >= 0 && index < elements.length`, otherwise
return `null` immediately. -/
def findLoop (e : DomNode) : List Int → Option DomNode
  | [] => some e
  | index :: rest =>
    let elements := (childrenOf e).filter isElementNode
    if 0 ≤ index ∧ index < (elements.length : Int) then
      match elements[index.toNat]? with
      | some c => findLoop c rest
      | none => none
    else none

/-- `findElementByPath` from the source: the empty path resolves to
`document.documentElement` (the `root` argument); otherwise the loop walks
from the root. -/
def findElementByPath (root : DomNode) (path : List Int) : Option DomNode :=
  if path.isEmpty then some root else findLoop root path

mutual

/-- All element uids occurring in a tree, root first. -/
def uidsOf : DomNode → List Nat
  | .element u _ _ _ _ kids => u :: uidsList kids
  | _ => []

/-- All element uids occurring in a list of trees, in order. -/
def uidsList : List DomNode → List Nat
  | [] => []
  | k :: ks => uidsOf k ++ uidsList ks

end

/-- Well-formed document: element uids are pairwise distinct, so uid equality
is reference equality. -/
def DomWF (root : DomNode) : Prop := (uidsOf root).Nodup

mutual

/-- Number of nodes in a tree (used as fuel for the upward walk of
`getElementPath`, which in the source is a `while` loop that strictly
ascends). -/
def domSize : DomNode → Nat
  | .element _ _ _ _ _ kids => 1 + domSizeList kids
  | _ => 1

/-- Number of nodes in a list of trees. -/
def domSizeList : List DomNode → Nat
  | [] => 0
  | k :: ks => domSize k + domSizeList ks

end

mutual

/-- Models the DOM `parentElement` pointer, root-relative: the unique node of
the tree that has the element with uid `u` among its element children
(searched by uid, which is reference identity under `DomWF`). -/
def parentOf (u : Nat) : DomNode → Option DomNode
  | .element w t i c h kids =>
    if (kids.filter isElementNode).any (fun k => euid k == u) then
      some (.element w t i c h kids)
    else parentOfList u kids
  | _ => none

/-- First parent found in a list of subtrees. -/
def parentOfList (u : Nat) : List DomNode → Option DomNode
  | [] => none
  | k :: ks =>
    match parentOf u k with
    | some p => some p
    | none => parentOfList u ks

end

/-- `Array.prototype.indexOf` on a list of elements, comparing by reference
identity (uid): index of the first occurrence, `-1` when absent. -/
def jsIndexOfAux (u : Nat) (k : Nat) : List DomNode → Int
  | [] => -1
  | x :: xs => if euid x = u then (k : Int) else jsIndexOfAux u (k + 1) xs

/-- `siblings.indexOf(currentElement)` of the source. -/
def jsIndexOf (l : List DomNode) (u : Nat) : Int := jsIndexOfAux u 0 l

/-- The `while (currentElement && currentElement !== document.documentElement)`
loop of `getElementPath`, made total with fuel (the loop strictly ascends the
tree, so `domSize root` steps always suffice): look up `parentElement`; if
absent, break; compute the index of the current element among the parent's
element children; `unshift` it when it is not `-1`; ascend. -/
def getElementPathGo (root : DomNode) : Nat → DomNode → List Int → List Int
  | 0, _, path => path
  | fuel + 1, currentElement, path =>
    if euid currentElement = euid root then path
    else
      match parentOf (euid currentElement) root with
      | none => path
      | some parentElement =>
        let siblings := (childrenOf parentElement).filter isElementNode
        let index := jsIndexOf siblings (euid currentElement)
        let path1 := if index ≠ -1 then index :: path else path
        getElementPathGo root fuel parentElement path1

/-- `getElementPath` from the source: walk from `element` up to
`document.documentElement` (the `root` argument), accumulating sibling
indices root-most first. -/
def getElementPath (root : DomNode) (element : DomNode) : List Int :=
  getElementPathGo root (domSize root) element []

/-- The `DOMElement` interface of `src/types` as used by the serializer:
tag (lower-cased), opening-tag HTML, optional id, optional class list, the
recursively serialized children, and the element's path. -/
structure DOMElement where
  tag : String
  firstElementHTML : String
  id : Option String
  classes : Option (List String)
  children : List DOMElement
  path : List Int
deriving Repr

/-- Models `clone.outerHTML.split('>')[0] + '>'` for the shallow clone on
which `clearHilight` has just run: the clone carries no children and no
inline outline style, so the opening tag is determined by the tag name, the
`id` attribute and the class list. -/
def openTagHTML (tagName idAttr : String) (classes : List String) : String :=
  "<" ++ tagName.toLower
    ++ (if idAttr = "" then "" else " id=\x22" ++ idAttr ++ "\x22")
    ++ (if classes.isEmpty then "" else
          " class=\x22" ++ String.intercalate " " classes ++ "\x22")
    ++ ">"

/-- Filtering a list of nodes can only shrink its size (termination helper
for the serializer, whose recursion passes through `element.children`). -/
theorem sizeOf_filter_le (p : DomNode → Bool) (l : List DomNode) :
    sizeOf (l.filter p) ≤ sizeOf l := by
  induction l with
  | nil => simp
  | cons a as ih =>
    simp only [List.filter]
    cases p a <;> simp <;> omega

mutual

/-- `serializeDOMElement` from the source: serialize the tag (lower-cased),
the opening-tag HTML of the style-cleared shallow clone, the id when truthy,
the class list when nonempty, and every child of `element.children` (the
element-only collection, named `nonTextChildren` in the source) with path
`currentPath ++ [index]`.  The source clones the node before reading it
(`cloneNode(false)` + `clearHilight(clone)`), so the live node is not
mutated; text and comment nodes are never serialized (they are absent from
`element.children`) and get a dummy record here for totality. -/
def serializeDOMElement : DomNode → List Int → DOMElement
  | .element _ tagName idAttr classes _ kids, currentPath =>
    { tag := tagName.toLower
      firstElementHTML := openTagHTML tagName idAttr classes
      id := if idAttr = "" then none else some idAttr
      classes := if classes.isEmpty then none else some classes
      children := serializeKids currentPath 0 (kids.filter isElementNode)
      path := currentPath }
  | .text _, currentPath =>
    { tag := "", firstElementHTML := "", id := none, classes := none
      children := [], path := currentPath }
  | .comment _, currentPath =>
    { tag := "", firstElementHTML := "", id := none, classes := none
      children := [], path := currentPath }
termination_by n _ => sizeOf n
decreasing_by
  have h := sizeOf_filter_le isElementNode kids
  simp_wf
  omega

/-- `nonTextChildren.map((child, index) => serializeDOMElement(child,
[...currentPath, index]))`, with the running index made explicit. -/
def serializeKids (currentPath : List Int) (index : Nat) :
    List DomNode → List DOMElement
  | [] => []
  | child :: rest =>
    serializeDOMElement child (currentPath ++ [(index : Int)])
      :: serializeKids currentPath (index + 1) rest
termination_by l => sizeOf l
decreasing_by
  all_goals simp_wf
  all_goals omega

end

/-- The inline outline styling of one element
(`element.style.outline` / `element.style.outlineOffset`). -/
structure OutlineStyle where
  outline : String
  outlineOffset : String
deriving Repr, DecidableEq

/-- Both style properties empty: no visual treatment. -/
def noStyle : OutlineStyle := ⟨"", ""⟩

/-- `HILIGHT_COLOR` from the source. -/
def HILIGHT_COLOR : String := "#4CAF50"

/-- `MAX_RECONNECT_ATTEMPTS` from the source. -/
def MAX_RECONNECT_ATTEMPTS : Nat := 3

/-- `RECONNECT_DELAY` (ms) from the source. -/
def RECONNECT_DELAY : Nat := 2000

/-- The mutable module state of the content script.  `styles` maps each
element uid to its inline outline styling (the only live-DOM mutation the
script performs); `scrollLog` records the `scrollIntoView` calls;
`events` records the `DOM_ELEMENT_UPDATE` messages sent via
`chrome.runtime.sendMessage`. -/
structure PageState where
  isActive : Bool
  highlightedElement : Option Nat
  previewElement : Option Nat
  styles : Nat → OutlineStyle
  clickHandler : Bool
  windowListeners : Bool
  reconnectAttempts : Nat
  reconnectTimer : Bool
  scrollLog : List Nat
  events : List DOMElement

/-- The state at script load: inactive, nothing highlighted or previewed, no
styling, no listeners, no reconnection in progress. -/
def initState : PageState :=
  { isActive := false, highlightedElement := none, previewElement := none
    styles := fun _ => noStyle, clickHandler := false
    windowListeners := false, reconnectAttempts := 0, reconnectTimer := false
    scrollLog := [], events := [] }

/-- `applyHilight(element, style)`:
`element.style.outline = `2px ${style} ${HILIGHT_COLOR}`` and
`element.style.outlineOffset = '-2px'`. -/
def applyHilight (st : PageState) (u : Nat) (style : String) : PageState :=
  { st with styles := fun v =>
      if v = u then ⟨"2px " ++ style ++ " " ++ HILIGHT_COLOR, "-2px"⟩
      else st.styles v }

/-- `clearHilight(element)`: both style properties reset to `''`. -/
def clearHilight (st : PageState) (u : Nat) : PageState :=
  { st with styles := fun v => if v = u then noStyle else st.styles v }

/-- `removeHighlight()`: clear the styling of the highlighted element, if
any, and null the reference. -/
def removeHighlight (st : PageState) : PageState :=
  match st.highlightedElement with
  | some u => { clearHilight st u with highlightedElement := none }
  | none => st

/-- `removePreview()`: clear the styling of the previewed element, if any,
and null the reference. -/
def removePreview (st : PageState) : PageState :=
  match st.previewElement with
  | some u => { clearHilight st u with previewElement := none }
  | none => st

/-- `previewHighlight(element)`: no-op when `element` is already the
previewed element; otherwise remove the existing preview, record the new one
and apply the dashed treatment. -/
def previewHighlight (st : PageState) (u : Nat) : PageState :=
  if st.previewElement = some u then st
  else
    let st1 := removePreview st
    applyHilight { st1 with previewElement := some u } u "dashed"

/-- `highlightElement(element)`: no-op when `element` is already the
highlighted element; otherwise remove the existing highlight and preview,
record the new highlight, apply the solid treatment and scroll the element
into view. -/
def highlightElement (st : PageState) (u : Nat) : PageState :=
  if st.highlightedElement = some u then st
  else
    let st1 := removePreview (removeHighlight st)
    let st2 := applyHilight { st1 with highlightedElement := some u } u "solid"
    { st2 with scrollLog := st2.scrollLog ++ [u] }

/-- `sendDOMUpdate(element, path)`: serialize the element and send it as a
`DOM_ELEMENT_UPDATE` message (appended to the event log). -/
def sendDOMUpdate (st : PageState) (element : DomNode) (path : List Int) :
    PageState :=
  { st with events := st.events ++ [serializeDOMElement element path] }

/-- `connectToBackground()` (state effects): the reconnection counter is
reset and any pending reconnection timer is cleared. -/
def connectToBackground (st : PageState) : PageState :=
  let st1 := { st with reconnectAttempts := 0 }
  if st1.reconnectTimer then { st1 with reconnectTimer := false } else st1

/-- `attachEventListeners()`: install the click handler and the window
listeners, then connect to the background script. -/
def attachEventListeners (st : PageState) : PageState :=
  connectToBackground { st with clickHandler := true, windowListeners := true }

/-- `cleanup()`: deactivate; clear highlight and preview (guarded as in the
source); remove the click handler if installed; remove the window listeners;
clear a pending reconnection timer; reset the reconnection counter. -/
def cleanup (st : PageState) : PageState :=
  let st1 := { st with isActive := false }
  let st2 :=
    if st1.highlightedElement.isSome || st1.previewElement.isSome then
      removePreview (removeHighlight st1)
    else st1
  let st3 := if st2.clickHandler then { st2 with clickHandler := false } else st2
  let st4 := { st3 with windowListeners := false }
  let st5 :=
    if st4.reconnectTimer then { st4 with reconnectTimer := false } else st4
  { st5 with reconnectAttempts := 0 }

/-- `attemptReconnect()`: when the attempt counter has reached
`MAX_RECONNECT_ATTEMPTS`, run `cleanup` and stop; otherwise increment the
counter and schedule the reconnection timer. -/
def attemptReconnect (st : PageState) : PageState :=
  if MAX_RECONNECT_ATTEMPTS ≤ st.reconnectAttempts then cleanup st
  else { st with reconnectAttempts := st.reconnectAttempts + 1
                 reconnectTimer := true }

/-- `handleClick(event)`: ignore when inactive or when the target is not an
`HTMLElement`; otherwise highlight the target, compute its path and send a
DOM update. -/
def handleClick (root : DomNode) (st : PageState) (target : DomNode) :
    PageState :=
  if !st.isActive then st
  else if isHTMLElement target then
    let st1 := highlightElement st (euid target)
    sendDOMUpdate st1 target (getElementPath root target)
  else st

/-- The message types handled by `handleMessage`. -/
inductive Msg where
  | activateExtension
  | deactivateExtension
  | getInitialDom
  | selectElement (path : List Int)
  | previewElement (path : List Int)
  | clearPreview
  | cleanupExtension
  | unknown (t : String)
deriving Repr, DecidableEq

/-- A `sendResponse` acknowledgment: `{ success, error? }`. -/
structure Ack where
  success : Bool
  error : Option String
deriving Repr, DecidableEq

/-- `handleMessage` from the source: dispatch on the message type; DOM
commands other than activation and cleanup are gated on `isActive` and
acknowledged with `{ success: false, error: 'Extension not active' }` when
inactive. -/
def handleMessage (root : DomNode) (st : PageState) (msg : Msg) :
    PageState × Ack :=
  match msg with
  | .activateExtension =>
    let st1 := { st with isActive := true }
    let st2 := attachEventListeners st1
    let st3 := sendDOMUpdate st2 root []
    (st3, ⟨true, none⟩)
  | .deactivateExtension => (cleanup st, ⟨true, none⟩)
  | .getInitialDom =>
    if !st.isActive then (st, ⟨false, some "Extension not active"⟩)
    else (sendDOMUpdate st root [], ⟨true, none⟩)
  | .selectElement path =>
    if !st.isActive then (st, ⟨false, some "Extension not active"⟩)
    else
      match findElementByPath root path with
      | some element =>
        if isHTMLElement element then
          let st1 := highlightElement st (euid element)
          (sendDOMUpdate st1 element path, ⟨true, none⟩)
        else (st, ⟨true, none⟩)
      | none => (st, ⟨true, none⟩)
  | .previewElement path =>
    if !st.isActive then (st, ⟨false, some "Extension not active"⟩)
    else
      match findElementByPath root path with
      | some element =>
        if isHTMLElement element then (previewHighlight st (euid element), ⟨true, none⟩)
        else (st, ⟨true, none⟩)
      | none => (st, ⟨true, none⟩)
  | .clearPreview =>
    if !st.isActive then (st, ⟨false, some "Extension not active"⟩)
    else
      let st1 := removePreview st
      let st2 :=
        match st1.highlightedElement with
        | some h => highlightElement st1 h
        | none => st1
      (st2, ⟨true, none⟩)
  | .cleanupExtension => (cleanup st, ⟨true, none⟩)
  | .unknown _ => (st, ⟨false, some "Unknown message type"⟩)

/-- Run a list of messages through the handler, keeping the state. -/
def runMsgs (root : DomNode) (st : PageState) (msgs : List Msg) : PageState :=
  msgs.foldl (fun s m => (handleMessage root s m).1) st

/-- The session states reachable by the content script: the initial state
closed under message handling, page clicks, reconnection events and the
lifecycle listeners that invoke `cleanup` directly (pagehide,
visibilitychange, beforeunload). -/
inductive Reachable : PageState → Prop where
  | init : Reachable initState
  | msg : ∀ st root m, Reachable st → Reachable (handleMessage root st m).1
  | click : ∀ st root e, Reachable st → Reachable (handleClick root st e)
  | reconnect : ∀ st, Reachable st → Reachable (attemptReconnect st)
  | connect : ∀ st, Reachable st → Reachable (connectToBackground st)
  | lifecycle : ∀ st, Reachable st → Reachable (cleanup st)

-- Sanity: a tiny concrete document.
/-- Example document used by witnesses: an HTML root (uid 0) with a text
node, a DIV (uid 1) containing a SPAN (uid 3), and a P (uid 2). -/
def egRoot : DomNode :=
  .element 0 "HTML" "" [] true
    [.text "hello",
     .element 1 "DIV" "main" ["a", "b"] true
       [.element 3 "SPAN" "" [] true []],
     .element 2 "P" "" [] true []]

example : findElementByPath egRoot [1] =
    some (.element 2 "P" "" [] true []) := by rfl
example : findElementByPath egRoot [0, 0] =
    some (.element 3 "SPAN" "" [] true []) := by rfl
example : findElementByPath egRoot [2] = none := by rfl
example : findElementByPath egRoot [-1] = none := by rfl
example : getElementPath egRoot (.element 3 "SPAN" "" [] true []) = [0, 0] := by rfl

/-! ### Path addressing: the `resolve(pathOf(E)) = E` round trip -/

/-- Structural induction principle for `DomNode` with the usual rose-tree
hypothesis on children. -/
theorem domNode_induction (P : DomNode → Prop)
    (he : ∀ u t i c h kids, (∀ k ∈ kids, P k) → P (.element u t i c h kids))
    (ht : ∀ s, P (.text s)) (hc : ∀ s, P (.comment s)) : ∀ n, P n
  | .element u t i c h kids =>
    he u t i c h kids (fun k hk => domNode_induction P he ht hc k)
  | .text s => ht s
  | .comment s => hc s
termination_by n => sizeOf n
decreasing_by
  have := List.sizeOf_lt_of_mem hk
  simp
  omega

theorem filter_isElementNode_children (n : DomNode) :
    (childrenOf n).filter isElementNode = childrenOf n := by
  apply List.filter_eq_self.mpr
  intro a ha
  exact (List.mem_filter.mp ha).2

theorem mem_childrenOf_isElementNode {n c : DomNode} (h : c ∈ childrenOf n) :
    isElementNode c = true :=
  (List.mem_filter.mp h).2

theorem childrenOf_nonempty_isElement {n c : DomNode} {i : Nat}
    (h : (childrenOf n)[i]? = some c) : isElementNode n = true := by
  cases n with
  | element u t ia cl hh kids => rfl
  | text s => simp [childrenOf, childNodesOf] at h
  | comment s => simp [childrenOf, childNodesOf] at h

theorem uidsList_append (a b : List DomNode) :
    uidsList (a ++ b) = uidsList a ++ uidsList b := by
  induction a with
  | nil => simp [uidsList]
  | cons k ks ih => simp [uidsList, ih]

theorem subset_uidsList {k : DomNode} {l : List DomNode} (hk : k ∈ l) :
    uidsOf k ⊆ uidsList l := by
  induction l with
  | nil => cases hk
  | cons x xs ih =>
    rcases List.mem_cons.mp hk with rfl | hk2
    · intro a ha
      simp [uidsList]
      exact Or.inl ha
    · intro a ha
      simp [uidsList]
      exact Or.inr (ih hk2 ha)

theorem euid_mem_uidsOf {D : DomNode} (h : isElementNode D = true) :
    euid D ∈ uidsOf D := by
  cases D with
  | element u t ia cl hh kids => simp [euid, uidsOf]
  | text s => simp [isElementNode] at h
  | comment s => simp [isElementNode] at h

/-- Navigating a valid path keeps the uid inside the tree's uid set, and the
reached node is an element (when the start node is). -/
theorem nodeAtPath_mem_uidsOf :
    ∀ (p : List Nat) (T E : DomNode), isElementNode T = true →
      nodeAtPath T p = some E →
      euid E ∈ uidsOf T ∧ isElementNode E = true := by
  intro p
  induction p with
  | nil =>
    intro T E hT hE
    rw [show E = T by simpa [nodeAtPath] using hE.symm]
    exact ⟨euid_mem_uidsOf hT, hT⟩
  | cons j q ih =>
    intro T E hT hE
    simp only [nodeAtPath] at hE
    cases hC : (childrenOf T)[j]? with
    | none => rw [hC] at hE; cases hE
    | some C =>
      rw [hC] at hE
      have hCmem : C ∈ childrenOf T := by
        have := List.getElem?_eq_some.mp hC
        obtain ⟨hlt, rfl⟩ := this
        exact List.getElem_mem hlt
      have hCel : isElementNode C = true := mem_childrenOf_isElementNode hCmem
      obtain ⟨hmem, hel⟩ := ih C E hCel hE
      refine ⟨?_, hel⟩
      cases T with
      | element u t ia cl hh kids =>
        have hCk : C ∈ kids := (List.mem_filter.mp hCmem).1
        simp only [uidsOf, List.mem_cons]
        exact Or.inr (subset_uidsList hCk hmem)
      | text s => simp [isElementNode] at hT
      | comment s => simp [isElementNode] at hT

/-- Navigating a nonempty path lands strictly inside the subtrees of the
children. -/
theorem nodeAtPath_cons_mem_tail {T E : DomNode} {j : Nat} {q : List Nat}
    (hE : nodeAtPath T (j :: q) = some E) :
    euid E ∈ uidsList (childNodesOf T) := by
  simp only [nodeAtPath] at hE
  cases hC : (childrenOf T)[j]? with
  | none => rw [hC] at hE; cases hE
  | some C =>
    rw [hC] at hE
    have hCmem : C ∈ childrenOf T := by
      obtain ⟨hlt, rfl⟩ := List.getElem?_eq_some.mp hC
      exact List.getElem_mem hlt
    have hCel : isElementNode C = true := mem_childrenOf_isElementNode hCmem
    have hCk : C ∈ childNodesOf T := (List.mem_filter.mp hCmem).1
    exact subset_uidsList hCk (nodeAtPath_mem_uidsOf q C E hCel hE).1

theorem parentOfList_eq_some {u : Nat} :
    ∀ {l : List DomNode} {P : DomNode}, parentOfList u l = some P →
      ∃ k ∈ l, parentOf u k = some P := by
  intro l
  induction l with
  | nil => intro P h; simp [parentOfList] at h
  | cons k ks ih =>
    intro P h
    simp only [parentOfList] at h
    cases hk : parentOf u k with
    | some Q =>
      rw [hk] at h
      exact ⟨k, List.mem_cons_self k ks, hk.trans h⟩
    | none =>
      rw [hk] at h
      obtain ⟨k2, hk2, hP⟩ := ih h
      exact ⟨k2, List.mem_cons_of_mem k hk2, hP⟩

/-- If a parent is found for uid `u`, then `u` occurs in the tree. -/
theorem parentOf_mem_uidsOf (u : Nat) :
    ∀ (K : DomNode), (∃ P, parentOf u K = some P) → u ∈ uidsOf K := by
  intro K
  induction K using domNode_induction with
  | he w t ia cl h kids ih =>
    rintro ⟨P, hP⟩
    simp only [parentOf] at hP
    by_cases hany : (kids.filter isElementNode).any (fun k => euid k == u)
    · obtain ⟨D, hD, hDu⟩ := List.any_eq_true.mp hany
      have hDel : isElementNode D = true := (List.mem_filter.mp hD).2
      have hDk : D ∈ kids := (List.mem_filter.mp hD).1
      have : u ∈ uidsOf D := by
        rw [show u = euid D from (beq_iff_eq.mp hDu).symm]
        exact euid_mem_uidsOf hDel
      simp only [uidsOf, List.mem_cons]
      exact Or.inr (subset_uidsList hDk this)
    · rw [if_neg hany] at hP
      obtain ⟨k, hk, hkP⟩ := parentOfList_eq_some hP
      simp only [uidsOf, List.mem_cons]
      exact Or.inr (subset_uidsList hk (ih k hk ⟨P, hkP⟩))
  | ht s => rintro ⟨P, hP⟩; simp [parentOf] at hP
  | hc s => rintro ⟨P, hP⟩; simp [parentOf] at hP

/-- Under distinct uids, a uid occurs in the subtree of at most one member
of a sibling list. -/
theorem mem_uidsOf_unique {x : Nat} :
    ∀ {l : List DomNode}, (uidsList l).Nodup →
      ∀ C ∈ l, ∀ D ∈ l, x ∈ uidsOf C → x ∈ uidsOf D → C = D := by
  intro l
  induction l with
  | nil => intro _ C hC; cases hC
  | cons k ks ih =>
    intro hnd C hC D hD hxC hxD
    have hnd2 : (uidsOf k ++ uidsList ks).Nodup := by
      simpa [uidsList] using hnd
    have hdisj : (uidsOf k).Disjoint (uidsList ks) :=
      List.disjoint_of_nodup_append hnd2
    rcases List.mem_cons.mp hC with rfl | hC2
    · rcases List.mem_cons.mp hD with rfl | hD2
      · rfl
      · exact absurd (subset_uidsList hD2 hxD) (hdisj hxC)
    · rcases List.mem_cons.mp hD with rfl | hD2
      · exact absurd (subset_uidsList hC2 hxC) (hdisj hxD)
      · exact ih hnd2.of_append_right C hC2 D hD2 hxC hxD

theorem nodup_uidsOf_of_mem :
    ∀ {l : List DomNode}, (uidsList l).Nodup →
      ∀ {k : DomNode}, k ∈ l → (uidsOf k).Nodup := by
  intro l
  induction l with
  | nil => intro _ k hk; cases hk
  | cons x xs ih =>
    intro hnd k hk
    have hnd2 : (uidsOf x ++ uidsList xs).Nodup := by
      simpa [uidsList] using hnd
    rcases List.mem_cons.mp hk with rfl | hk2
    · exact hnd2.of_append_left
    · exact ih hnd2.of_append_right hk2

/-- When `parentOf u C` succeeds for a member `C` of a sibling list whose
subtree contains `u`, scanning the whole list returns the same parent
(uniqueness of the occurrence of `u`). -/
theorem parentOfList_of_mem {u : Nat} {P C : DomNode} :
    ∀ {l : List DomNode}, (uidsList l).Nodup → C ∈ l → u ∈ uidsOf C →
      parentOf u C = some P → parentOfList u l = some P := by
  intro l
  induction l with
  | nil => intro _ hC; cases hC
  | cons k ks ih =>
    intro hnd hC hu hP
    have hnd2 : (uidsOf k ++ uidsList ks).Nodup := by
      simpa [uidsList] using hnd
    simp only [parentOfList]
    cases hk : parentOf u k with
    | some Q =>
      have huk : u ∈ uidsOf k := parentOf_mem_uidsOf u k ⟨Q, hk⟩
      have hCk : C = k := mem_uidsOf_unique hnd C hC k (List.mem_cons_self k ks) hu huk
      rw [hCk] at hP
      rw [hP] at hk
      exact hk.symm
    | none =>
      rcases List.mem_cons.mp hC with rfl | hC2
      · rw [hP] at hk; cases hk
      · exact ih hnd2.of_append_right hC2 hu hP

theorem nodeAtPath_append (p q : List Nat) :
    ∀ n : DomNode, nodeAtPath n (p ++ q) =
      (nodeAtPath n p).bind (fun m => nodeAtPath m q) := by
  induction p with
  | nil => intro n; simp [nodeAtPath]
  | cons j p2 ih =>
    intro n
    simp only [List.cons_append, nodeAtPath]
    cases hC : (childrenOf n)[j]? with
    | none => simp
    | some C => simp [ih C]

/-- The parent pointer computed by searching from the root agrees with path
navigation: the parent of the node at `q ++ [i]` is the node at `q`. -/
theorem parentOf_nodeAtPath :
    ∀ (q : List Nat) (root : DomNode) (i : Nat) (E : DomNode),
      (uidsOf root).Nodup → isElementNode root = true →
      nodeAtPath root (q ++ [i]) = some E →
      parentOf (euid E) root = nodeAtPath root q := by
  intro q
  induction q with
  | nil =>
    intro root i E hnd hrt hE
    simp only [List.nil_append, nodeAtPath] at hE
    cases hC : (childrenOf root)[i]? with
    | none => rw [hC] at hE; cases hE
    | some C =>
      rw [hC] at hE
      have hCE : C = E := by simpa [nodeAtPath] using hE
      subst hCE
      have hCmem : C ∈ childrenOf root := by
        obtain ⟨hlt, rfl⟩ := List.getElem?_eq_some.mp hC
        exact List.getElem_mem hlt
      cases root with
      | element w t ia cl h kids =>
        have hany : (kids.filter isElementNode).any (fun k => euid k == euid C) = true := by
          apply List.any_eq_true.mpr
          exact ⟨C, hCmem, by simp⟩
        simp [parentOf, hany, nodeAtPath]
      | text s => simp [isElementNode] at hrt
      | comment s => simp [isElementNode] at hrt
  | cons j q2 ih =>
    intro root i E hnd hrt hE
    simp only [List.cons_append, nodeAtPath] at hE
    cases hC : (childrenOf root)[j]? with
    | none => rw [hC] at hE; cases hE
    | some C =>
      rw [hC] at hE
      have hCmem : C ∈ childrenOf root := by
        obtain ⟨hlt, rfl⟩ := List.getElem?_eq_some.mp hC
        exact List.getElem_mem hlt
      have hCel : isElementNode C = true := mem_childrenOf_isElementNode hCmem
      cases root with
      | element w t ia cl h kids =>
        have hCk : C ∈ kids := (List.mem_filter.mp hCmem).1
        have hndkids : (uidsList kids).Nodup := by
          have : (uidsOf (DomNode.element w t ia cl h kids)).Nodup := hnd
          simpa [uidsOf] using this.of_cons
        have hndC : (uidsOf C).Nodup := nodup_uidsOf_of_mem hndkids hCk
        -- E sits strictly inside C's subtree
        have hEC : euid E ∈ uidsOf C :=
          (nodeAtPath_mem_uidsOf (q2 ++ [i]) C E hCel hE).1
        have hEtail : euid E ∈ uidsList (childNodesOf C) := by
          rcases q2 with _ | ⟨j2, q3⟩
          · exact nodeAtPath_cons_mem_tail hE
          · exact nodeAtPath_cons_mem_tail hE
        -- (a) no direct child of the root carries E's uid
        have hany : ¬((kids.filter isElementNode).any (fun k => euid k == euid E) = true) := by
          intro hany
          obtain ⟨D, hD, hDu⟩ := List.any_eq_true.mp hany
          have hDel : isElementNode D = true := (List.mem_filter.mp hD).2
          have hDk : D ∈ kids := (List.mem_filter.mp hD).1
          have hED : euid E ∈ uidsOf D := by
            rw [show euid E = euid D from (beq_iff_eq.mp hDu).symm]
            exact euid_mem_uidsOf hDel
          have hDC : D = C := mem_uidsOf_unique hndkids D hDk C hCk hED hEC
          subst hDC
          -- then E's uid is both the head of D's uid list and inside its tail
          cases D with
          | element w2 t2 ia2 cl2 h2 kids2 =>
            have hhead : euid E = w2 := (beq_iff_eq.mp hDu).symm
            have : w2 ∉ uidsList kids2 := by
              have := hndC
              simp only [uidsOf] at this
              exact (List.nodup_cons.mp this).1
            rw [hhead] at hEtail
            exact this (by simpa [childNodesOf] using hEtail)
          | text s => simp [isElementNode] at hDel
          | comment s => simp [isElementNode] at hDel
        -- (b) the scan of the children finds the parent inside C
        have hq : nodeAtPath C (q2 ++ [i]) = some E := hE
        rw [nodeAtPath_append] at hq
        cases hP : nodeAtPath C q2 with
        | none => rw [hP] at hq; cases hq
        | some P =>
          rw [hP] at hq
          have hPC : parentOf (euid E) C = some P := by
            rw [ih C i E hndC hCel hE, hP]
          have hscan : parentOfList (euid E) kids = some P :=
            parentOfList_of_mem hndkids hCk hEC hPC
          simp only [parentOf, nodeAtPath, hC]
          rw [if_neg hany, hscan, hP]
      | text s => simp [isElementNode] at hrt
      | comment s => simp [isElementNode] at hrt

/-- Under distinct uids, the uids of the element children are themselves
distinct. -/
theorem nodup_map_euid_filter :
    ∀ {l : List DomNode}, (uidsList l).Nodup →
      ((l.filter isElementNode).map euid).Nodup := by
  intro l
  induction l with
  | nil => intro _; simp
  | cons k ks ih =>
    intro hnd
    have hnd2 : (uidsOf k ++ uidsList ks).Nodup := by
      simpa [uidsList] using hnd
    have hdisj : (uidsOf k).Disjoint (uidsList ks) :=
      List.disjoint_of_nodup_append hnd2
    cases hel : isElementNode k with
    | false =>
      have : uidsOf k = [] := by
        cases k with
        | element u t ia cl h kids => simp [isElementNode] at hel
        | text s => rfl
        | comment s => rfl
      simpa [List.filter_cons, hel] using ih hnd2.of_append_right
    | true =>
      simp only [List.filter_cons, hel, if_true, List.map_cons, List.nodup_cons]
      refine ⟨?_, ih hnd2.of_append_right⟩
      intro hmem
      obtain ⟨D, hD, hDu⟩ := List.mem_map.mp hmem
      have hDel : isElementNode D = true := (List.mem_filter.mp hD).2
      have hDk : D ∈ ks := (List.mem_filter.mp hD).1
      have h1 : euid k ∈ uidsOf D := by
        rw [← hDu]
        exact euid_mem_uidsOf hDel
      have h2 : euid k ∈ uidsOf k := euid_mem_uidsOf hel
      exact hdisj h2 (subset_uidsList hDk h1)

/-- `indexOf` (by reference identity) returns the position of the occurrence
when the compared uids are duplicate-free. -/
theorem jsIndexOfAux_eq :
    ∀ (l : List DomNode) (k ix : Nat) (E : DomNode), (l.map euid).Nodup →
      l[ix]? = some E → jsIndexOfAux (euid E) k l = ((k + ix : Nat) : Int) := by
  intro l
  induction l with
  | nil => intro k ix E _ hix; simp at hix
  | cons x xs ih =>
    intro k ix E hnd hix
    cases ix with
    | zero =>
      have hxE : x = E := by simpa using hix
      subst hxE
      simp [jsIndexOfAux]
    | succ ix2 =>
      have hmem : E ∈ xs := by
        obtain ⟨hlt, rfl⟩ := List.getElem?_eq_some.mp (by simpa using hix)
        exact List.getElem_mem _
      have hne : ¬(euid x = euid E) := by
        intro heq
        have : euid x ∈ xs.map euid := List.mem_map.mpr ⟨E, hmem, heq.symm⟩
        exact (List.nodup_cons.mp (by simpa using hnd)).1 this
      have harith : k + 1 + ix2 = k + (ix2 + 1) := by omega
      rw [jsIndexOfAux, if_neg hne, ih (k + 1) ix2 E (List.nodup_cons.mp (by simpa using hnd)).2
        (by simpa using hix), harith]

/-- `findElementByPath` agrees with specification-level navigation on paths
of non-negative indices. -/
theorem findLoop_map_natCast :
    ∀ (p : List Nat) (n : DomNode),
      findLoop n (p.map (fun j => (j : Int))) = nodeAtPath n p := by
  intro p
  induction p with
  | nil => intro n; rfl
  | cons i p2 ih =>
    intro n
    show (if 0 ≤ (i : Int) ∧ (i : Int) < (((childrenOf n).filter isElementNode).length : Int) then
            match ((childrenOf n).filter isElementNode)[((i : Int)).toNat]? with
            | some c => findLoop c (p2.map (fun j => (j : Int)))
            | none => none
          else none) = nodeAtPath n (i :: p2)
    rw [filter_isElementNode_children]
    rw [show nodeAtPath n (i :: p2) =
        (match (childrenOf n)[i]? with
         | some c => nodeAtPath c p2
         | none => none) from rfl]
    by_cases hlt : i < (childrenOf n).length
    · rw [if_pos (by omega)]
      have htn : ((i : Int)).toNat = i := by omega
      rw [htn]
      cases hC : (childrenOf n)[i]? with
      | none => rfl
      | some C => exact ih C
    · rw [if_neg (by omega)]
      rw [List.getElem?_eq_none (by omega)]

theorem findElementByPath_map_natCast (root : DomNode) (p : List Nat) :
    findElementByPath root (p.map (fun i => (i : Int))) = nodeAtPath root p := by
  cases p with
  | nil => simp [findElementByPath, nodeAtPath]
  | cons i p2 =>
    rw [findElementByPath, if_neg (by simp)]
    exact findLoop_map_natCast (i :: p2) root

theorem domSize_le_of_mem :
    ∀ {l : List DomNode} {k : DomNode}, k ∈ l → domSize k ≤ domSizeList l := by
  intro l
  induction l with
  | nil => intro k hk; cases hk
  | cons x xs ih =>
    intro k hk
    rcases List.mem_cons.mp hk with rfl | hk2
    · simp [domSizeList]
    · have := ih hk2
      simp only [domSizeList]
      omega

theorem domSize_pos (n : DomNode) : 1 ≤ domSize n := by
  cases n <;> simp [domSize]

theorem nodeAtPath_length_lt :
    ∀ (p : List Nat) (root E : DomNode), nodeAtPath root p = some E →
      p.length < domSize root := by
  intro p
  induction p with
  | nil =>
    intro root E _
    have := domSize_pos root
    simpa using this
  | cons j q ih =>
    intro root E hE
    simp only [nodeAtPath] at hE
    cases hC : (childrenOf root)[j]? with
    | none => rw [hC] at hE; cases hE
    | some C =>
      rw [hC] at hE
      have hCmem : C ∈ childrenOf root := by
        obtain ⟨hlt, rfl⟩ := List.getElem?_eq_some.mp hC
        exact List.getElem_mem hlt
      cases root with
      | element w t ia cl h kids =>
        have hCk : C ∈ kids := (List.mem_filter.mp hCmem).1
        have h1 := ih C E hE
        have h2 := domSize_le_of_mem hCk
        simp only [domSize, List.length_cons]
        omega
      | text s => simp [childrenOf, childNodesOf] at hC
      | comment s => simp [childrenOf, childNodesOf] at hC

theorem nodeAtPath_nodup :
    ∀ (p : List Nat) (root P : DomNode), (uidsOf root).Nodup →
      nodeAtPath root p = some P → (uidsOf P).Nodup := by
  intro p
  induction p with
  | nil =>
    intro root P hnd hP
    rwa [show P = root by simpa [nodeAtPath] using hP.symm]
  | cons j q ih =>
    intro root P hnd hP
    simp only [nodeAtPath] at hP
    cases hC : (childrenOf root)[j]? with
    | none => rw [hC] at hP; cases hP
    | some C =>
      rw [hC] at hP
      have hCmem : C ∈ childrenOf root := by
        obtain ⟨hlt, rfl⟩ := List.getElem?_eq_some.mp hC
        exact List.getElem_mem hlt
      cases root with
      | element w t ia cl h kids =>
        have hCk : C ∈ kids := (List.mem_filter.mp hCmem).1
        have hndkids : (uidsList kids).Nodup := by
          have h2 : (uidsOf (DomNode.element w t ia cl h kids)).Nodup := hnd
          simpa [uidsOf] using h2.of_cons
        exact ih C P (nodup_uidsOf_of_mem hndkids hCk) hP
      | text s => simp [childrenOf, childNodesOf] at hC
      | comment s => simp [childrenOf, childNodesOf] at hC

/-- The fuelled upward walk of `getElementPath` started at the node reached
by path `p` produces exactly `p` (prepended to the accumulator), provided
the fuel exceeds the path length. -/
theorem getElementPathGo_eq (root : DomNode) (hnd : (uidsOf root).Nodup)
    (hrt : isElementNode root = true) :
    ∀ (p : List Nat) (E : DomNode) (acc : List Int) (fuel : Nat),
      nodeAtPath root p = some E → p.length < fuel →
      getElementPathGo root fuel E acc = p.map (fun j => (j : Int)) ++ acc := by
  intro p
  induction p using List.reverseRecOn with
  | nil =>
    intro E acc fuel hE hf
    have hE2 : root = E := by simpa [nodeAtPath] using hE
    subst hE2
    cases fuel with
    | zero => omega
    | succ f => simp [getElementPathGo]
  | append_singleton q i ih =>
    intro E acc fuel hE hf
    have hE0 := hE
    rw [nodeAtPath_append] at hE
    cases hP : nodeAtPath root q with
    | none => rw [hP] at hE; cases hE
    | some P =>
      rw [hP, Option.some_bind] at hE
      -- the last step of the path: E is the i-th element child of P
      have hCE : (childrenOf P)[i]? = some E := by
        simp only [nodeAtPath] at hE
        cases hC2 : (childrenOf P)[i]? with
        | none => rw [hC2] at hE; cases hE
        | some C =>
          rw [hC2] at hE
          have hE2 : C = E := by
            have h3 : some C = some E := hE
            exact Option.some.inj h3
          exact congrArg some hE2
      have hPel : isElementNode P = true := childrenOf_nonempty_isElement hCE
      -- E is not the document root
      have hne : ¬(euid E = euid root) := by
        have hmem : euid E ∈ uidsList (childNodesOf root) := by
          cases hq : q ++ [i] with
          | nil => exact absurd hq (by simp)
          | cons j rest =>
            rw [hq] at hE0
            exact nodeAtPath_cons_mem_tail hE0
        cases root with
        | element w t ia cl h kids =>
          have hw : w ∉ uidsList kids := by
            have h2 : (uidsOf (DomNode.element w t ia cl h kids)).Nodup := hnd
            simp only [uidsOf] at h2
            exact (List.nodup_cons.mp h2).1
          intro heq
          rw [show euid (DomNode.element w t ia cl h kids) = w from rfl] at heq
          rw [heq] at hmem
          exact hw (by simpa [childNodesOf] using hmem)
        | text s => simp [isElementNode] at hrt
        | comment s => simp [isElementNode] at hrt
      -- the parent pointer of E is P
      have hpar : parentOf (euid E) root = some P := by
        rw [parentOf_nodeAtPath q root i E hnd hrt hE0, hP]
      -- the index of E among P's element children is i
      have hndP : (uidsOf P).Nodup := nodeAtPath_nodup q root P hnd hP
      have hmapnd : ((childrenOf P).map euid).Nodup := by
        cases P with
        | element w2 t2 ia2 cl2 h2 kids2 =>
          have hndk : (uidsList kids2).Nodup := by
            have h3 : (uidsOf (DomNode.element w2 t2 ia2 cl2 h2 kids2)).Nodup := hndP
            simpa [uidsOf] using h3.of_cons
          exact nodup_map_euid_filter hndk
        | text s => simp [isElementNode] at hPel
        | comment s => simp [isElementNode] at hPel
      have hidx : jsIndexOf ((childrenOf P).filter isElementNode) (euid E) = (i : Int) := by
        rw [filter_isElementNode_children]
        have h4 := jsIndexOfAux_eq (childrenOf P) 0 i E hmapnd hCE
        simpa [jsIndexOf] using h4
      -- one step of the loop, then the induction hypothesis
      cases fuel with
      | zero =>
        simp only [List.length_append, List.length_cons, List.length_nil] at hf
        omega
      | succ f =>
        simp only [getElementPathGo]
        rw [if_neg hne, hpar]
        show getElementPathGo root f P
          (if jsIndexOf ((childrenOf P).filter isElementNode) (euid E) ≠ -1 then
            jsIndexOf ((childrenOf P).filter isElementNode) (euid E) :: acc
          else acc) = _
        rw [hidx]
        rw [if_pos (by omega : ((i : Nat) : Int) ≠ -1)]
        have hflen : q.length < f := by
          simp only [List.length_append, List.length_cons, List.length_nil] at hf
          omega
        rw [ih P ((i : Int) :: acc) f hP hflen]
        simp

/-- C1 (round trip): for every element `E` reachable from the document root
(i.e. sitting at some valid element-child path `p`), in a well-formed
document (distinct reference identities) whose root is an element,
`findElementByPath (getElementPath E)` returns exactly `E`. -/
theorem findElementByPath_getElementPath_roundtrip (root E : DomNode)
    (p : List Nat) (hwf : DomWF root) (hrt : isElementNode root = true)
    (hp : nodeAtPath root p = some E) :
    findElementByPath root (getElementPath root E) = some E := by
  have hlen : p.length < domSize root := nodeAtPath_length_lt p root E hp
  have hgo := getElementPathGo_eq root hwf hrt p E [] (domSize root) hp hlen
  unfold getElementPath
  rw [hgo, List.append_nil, findElementByPath_map_natCast root p, hp]

/-- Witness for the round trip on the example document: the SPAN at path
`[0, 0]`. -/
theorem findElementByPath_getElementPath_roundtrip_witness :
    DomWF egRoot ∧
    nodeAtPath egRoot [0, 0] = some (.element 3 "SPAN" "" [] true []) ∧
    findElementByPath egRoot
        (getElementPath egRoot (.element 3 "SPAN" "" [] true [])) =
      some (.element 3 "SPAN" "" [] true []) :=
  ⟨by unfold DomWF; decide, rfl,
   findElementByPath_getElementPath_roundtrip egRoot
     (.element 3 "SPAN" "" [] true []) [0, 0] (by unfold DomWF; decide) rfl rfl⟩

@[simp] theorem applyHilight_highlightedElement (st : PageState) (u : Nat)
    (s : String) : (applyHilight st u s).highlightedElement = st.highlightedElement := rfl

@[simp] theorem applyHilight_previewElement (st : PageState) (u : Nat)
    (s : String) : (applyHilight st u s).previewElement = st.previewElement := rfl

@[simp] theorem applyHilight_isActive (st : PageState) (u : Nat)
    (s : String) : (applyHilight st u s).isActive = st.isActive := rfl

@[simp] theorem removeHighlight_highlightedElement (st : PageState) :
    (removeHighlight st).highlightedElement = none := by
  cases h : st.highlightedElement <;> simp [removeHighlight, clearHilight, h]

@[simp] theorem removeHighlight_previewElement (st : PageState) :
    (removeHighlight st).previewElement = st.previewElement := by
  cases h : st.highlightedElement <;> simp [removeHighlight, clearHilight, h]

@[simp] theorem removeHighlight_isActive (st : PageState) :
    (removeHighlight st).isActive = st.isActive := by
  cases h : st.highlightedElement <;> simp [removeHighlight, clearHilight, h]

@[simp] theorem removePreview_previewElement (st : PageState) :
    (removePreview st).previewElement = none := by
  cases h : st.previewElement <;> simp [removePreview, clearHilight, h]

@[simp] theorem removePreview_highlightedElement (st : PageState) :
    (removePreview st).highlightedElement = st.highlightedElement := by
  cases h : st.previewElement <;> simp [removePreview, clearHilight, h]

@[simp] theorem removePreview_isActive (st : PageState) :
    (removePreview st).isActive = st.isActive := by
  cases h : st.previewElement <;> simp [removePreview, clearHilight, h]

theorem highlightElement_highlightedElement (st : PageState) (u : Nat) :
    (highlightElement st u).highlightedElement = some u := by
  by_cases hc : st.highlightedElement = some u <;>
    simp [highlightElement, hc]

theorem highlightElement_previewElement_of_ne (st : PageState) (u : Nat)
    (hc : st.highlightedElement ≠ some u) :
    (highlightElement st u).previewElement = none := by
  simp [highlightElement, hc]

theorem highlightElement_of_highlighted (st : PageState) (u : Nat)
    (h : st.highlightedElement = some u) : highlightElement st u = st := by
  simp [highlightElement, h]

@[simp] theorem previewHighlight_highlightedElement (st : PageState) (u : Nat) :
    (previewHighlight st u).highlightedElement = st.highlightedElement := by
  by_cases hp : st.previewElement = some u <;> simp [previewHighlight, hp]

@[simp] theorem connectToBackground_styles (st : PageState) :
    (connectToBackground st).styles = st.styles := by
  simp only [connectToBackground]
  split <;> rfl

@[simp] theorem connectToBackground_highlightedElement (st : PageState) :
    (connectToBackground st).highlightedElement = st.highlightedElement := by
  simp only [connectToBackground]
  split <;> rfl

@[simp] theorem connectToBackground_previewElement (st : PageState) :
    (connectToBackground st).previewElement = st.previewElement := by
  simp only [connectToBackground]
  split <;> rfl

@[simp] theorem attachEventListeners_styles (st : PageState) :
    (attachEventListeners st).styles = st.styles := by
  simp [attachEventListeners]

@[simp] theorem attachEventListeners_highlightedElement (st : PageState) :
    (attachEventListeners st).highlightedElement = st.highlightedElement := by
  simp [attachEventListeners]

@[simp] theorem attachEventListeners_previewElement (st : PageState) :
    (attachEventListeners st).previewElement = st.previewElement := by
  simp [attachEventListeners]

@[simp] theorem sendDOMUpdate_styles (st : PageState) (e : DomNode)
    (p : List Int) : (sendDOMUpdate st e p).styles = st.styles := rfl

@[simp] theorem sendDOMUpdate_highlightedElement (st : PageState) (e : DomNode)
    (p : List Int) :
    (sendDOMUpdate st e p).highlightedElement = st.highlightedElement := rfl

@[simp] theorem sendDOMUpdate_previewElement (st : PageState) (e : DomNode)
    (p : List Int) :
    (sendDOMUpdate st e p).previewElement = st.previewElement := rfl

@[simp] theorem sendDOMUpdate_isActive (st : PageState) (e : DomNode)
    (p : List Int) : (sendDOMUpdate st e p).isActive = st.isActive := rfl

theorem applyHilight_styles (st : PageState) (u : Nat) (s : String) (v : Nat) :
    (applyHilight st u s).styles v =
      if v = u then ⟨"2px " ++ s ++ " " ++ HILIGHT_COLOR, "-2px"⟩
      else st.styles v := rfl

theorem removeHighlight_styles (st : PageState) (v : Nat) :
    (removeHighlight st).styles v =
      if st.highlightedElement = some v then noStyle else st.styles v := by
  cases h : st.highlightedElement with
  | none => simp [removeHighlight, h]
  | some u =>
    by_cases hv : v = u
    · simp [removeHighlight, clearHilight, h, hv]
    · have huv : u ≠ v := fun hh => hv hh.symm
      simp [removeHighlight, clearHilight, h, hv, huv]

theorem removePreview_styles (st : PageState) (v : Nat) :
    (removePreview st).styles v =
      if st.previewElement = some v then noStyle else st.styles v := by
  cases h : st.previewElement with
  | none => simp [removePreview, h]
  | some u =>
    by_cases hv : v = u
    · simp [removePreview, clearHilight, h, hv]
    · have huv : u ≠ v := fun hh => hv hh.symm
      simp [removePreview, clearHilight, h, hv, huv]

/-- The styling invariant of the module: only the currently highlighted or
previewed element can carry a non-empty outline treatment.  Every reachable
state satisfies it (`reachable_styleInv`), which is what makes `cleanup` —
which only clears the styling of the two tracked elements — leave no
residual styling anywhere. -/
def StyleInv (st : PageState) : Prop :=
  ∀ u, st.styles u ≠ noStyle →
    st.highlightedElement = some u ∨ st.previewElement = some u

theorem styleInv_of_eq (st st' : PageState) (hs : st'.styles = st.styles)
    (hh : st'.highlightedElement = st.highlightedElement)
    (hp : st'.previewElement = st.previewElement)
    (h : StyleInv st) : StyleInv st' := by
  intro u hu
  rw [hs] at hu
  rw [hh, hp]
  exact h u hu

theorem styleInv_removeHighlight (st : PageState) (h : StyleInv st) :
    StyleInv (removeHighlight st) := by
  intro u hu
  rw [removeHighlight_styles] at hu
  by_cases hh : st.highlightedElement = some u
  · simp [hh] at hu
  · rw [if_neg hh] at hu
    rcases h u hu with h1 | h2
    · exact absurd h1 hh
    · right
      rw [removeHighlight_previewElement]
      exact h2

theorem styleInv_removePreview (st : PageState) (h : StyleInv st) :
    StyleInv (removePreview st) := by
  intro u hu
  rw [removePreview_styles] at hu
  by_cases hp : st.previewElement = some u
  · simp [hp] at hu
  · rw [if_neg hp] at hu
    rcases h u hu with h1 | h2
    · left
      rw [removePreview_highlightedElement]
      exact h1
    · exact absurd h2 hp

theorem styleInv_previewHighlight (st : PageState) (u : Nat)
    (h : StyleInv st) : StyleInv (previewHighlight st u) := by
  by_cases hp : st.previewElement = some u
  · simpa [previewHighlight, hp] using h
  · intro v hv
    simp only [previewHighlight, hp, if_false] at hv ⊢
    rw [applyHilight_styles] at hv
    by_cases hvu : v = u
    · right
      simp [hvu]
    · rw [if_neg hvu] at hv
      have hv2 : (removePreview st).styles v ≠ noStyle := hv
      rcases styleInv_removePreview st h v hv2 with h1 | h2
    -- new highlighted = (removePreview st).highlightedElement
      · left
        simpa using h1
      · simp [removePreview_previewElement] at h2

theorem styleInv_highlightElement (st : PageState) (u : Nat)
    (h : StyleInv st) : StyleInv (highlightElement st u) := by
  by_cases hc : st.highlightedElement = some u
  · simpa [highlightElement, hc] using h
  · intro v hv
    simp only [highlightElement, hc, if_false] at hv ⊢
    rw [applyHilight_styles] at hv
    by_cases hvu : v = u
    · left
      simp [hvu]
    · rw [if_neg hvu] at hv
      have hv2 : (removePreview (removeHighlight st)).styles v ≠ noStyle := hv
      rcases styleInv_removePreview _ (styleInv_removeHighlight st h) v hv2 with h1 | h2
      · simp [removeHighlight_highlightedElement] at h1
      · simp [removePreview_previewElement] at h2

/-- The first half of `cleanup` (deactivation and highlight clearing), used
to state its normal form. -/
def cleanupCore (st : PageState) : PageState :=
  if st.highlightedElement.isSome || st.previewElement.isSome then
    removePreview (removeHighlight { st with isActive := false })
  else { st with isActive := false }

theorem cleanup_tail (s2 : PageState) :
    (let s3 := if s2.clickHandler then { s2 with clickHandler := false } else s2
     let s4 := { s3 with windowListeners := false }
     let s5 := if s4.reconnectTimer then { s4 with reconnectTimer := false } else s4
     { s5 with reconnectAttempts := 0 }) =
    { s2 with
      clickHandler := false
      windowListeners := false
      reconnectTimer := false
      reconnectAttempts := 0 } := by
  by_cases hC : s2.clickHandler <;> by_cases hT : s2.reconnectTimer <;>
    cases s2 <;> simp_all

/-- Normal form of `cleanup`. -/
theorem cleanup_eq (st : PageState) :
    cleanup st =
      { cleanupCore st with
        clickHandler := false
        windowListeners := false
        reconnectTimer := false
        reconnectAttempts := 0 } :=
  cleanup_tail (cleanupCore st)

theorem cleanupCore_isActive (st : PageState) :
    (cleanupCore st).isActive = false := by
  unfold cleanupCore
  split <;> simp

theorem cleanupCore_highlightedElement (st : PageState) :
    (cleanupCore st).highlightedElement = none := by
  unfold cleanupCore
  split
  · simp
  case isFalse hg =>
    rcases hst : st.highlightedElement with _ | v
    · simp [hst]
    · rw [hst] at hg
      simp at hg


theorem cleanupCore_previewElement (st : PageState) :
    (cleanupCore st).previewElement = none := by
  unfold cleanupCore
  split
  · simp
  case isFalse hg =>
    rcases hst : st.previewElement with _ | v
    · simp [hst]
    · rw [hst] at hg
      simp at hg

theorem cleanup_isActive (st : PageState) : (cleanup st).isActive = false := by
  rw [cleanup_eq]
  exact cleanupCore_isActive st

theorem cleanup_highlightedElement (st : PageState) :
    (cleanup st).highlightedElement = none := by
  rw [cleanup_eq]
  exact cleanupCore_highlightedElement st

theorem cleanup_previewElement (st : PageState) :
    (cleanup st).previewElement = none := by
  rw [cleanup_eq]
  exact cleanupCore_previewElement st

theorem cleanup_clickHandler (st : PageState) :
    (cleanup st).clickHandler = false := by
  rw [cleanup_eq]

theorem cleanup_windowListeners (st : PageState) :
    (cleanup st).windowListeners = false := by
  rw [cleanup_eq]

theorem cleanup_reconnectTimer (st : PageState) :
    (cleanup st).reconnectTimer = false := by
  rw [cleanup_eq]

theorem cleanup_reconnectAttempts (st : PageState) :
    (cleanup st).reconnectAttempts = 0 := by
  rw [cleanup_eq]

theorem cleanup_styles (st : PageState) (h : StyleInv st) :
    ∀ u, (cleanup st).styles u = noStyle := by
  intro u
  have hsty : (cleanup st).styles u = (cleanupCore st).styles u := by
    rw [cleanup_eq]
  rw [hsty]
  unfold cleanupCore
  by_cases hg : st.highlightedElement.isSome || st.previewElement.isSome
  · rw [if_pos hg, removePreview_styles, removeHighlight_styles]
    by_cases hh : st.highlightedElement = some u
    · simp [hh]
    · by_cases hp : st.previewElement = some u
      · simp only [removeHighlight_previewElement]
        simp [hp, hh]
      · simp only [removeHighlight_previewElement]
        have hh2 : ({ st with isActive := false } : PageState).highlightedElement ≠ some u := hh
        have hp2 : ({ st with isActive := false } : PageState).previewElement ≠ some u := hp
        rw [if_neg hp2, if_neg hh2]
        by_contra hne
        rcases h u hne with h1 | h2
        · exact hh h1
        · exact hp h2
  · rw [if_neg hg]
    by_contra hne
    simp only [Bool.or_eq_true, Option.isSome_iff_exists, not_or, not_exists] at hg
    rcases h u hne with h1 | h2
    · exact hg.1 u h1
    · exact hg.2 u h2

theorem styleInv_cleanup (st : PageState) (h : StyleInv st) :
    StyleInv (cleanup st) := by
  intro u hu
  exact absurd (cleanup_styles st h u) hu

theorem cleanup_of_clean (c : PageState) (h1 : c.isActive = false)
    (h2 : c.highlightedElement = none) (h3 : c.previewElement = none)
    (h4 : c.clickHandler = false) (h5 : c.windowListeners = false)
    (h6 : c.reconnectTimer = false) (h7 : c.reconnectAttempts = 0) :
    cleanup c = c := by
  simp only [cleanup, h2, h3, h4, h6, Option.isSome_none, Bool.or_self,
    Bool.false_eq_true, if_false]
  cases c
  simp_all

/-- `cleanup` is idempotent on every state. -/
theorem cleanup_cleanup (st : PageState) : cleanup (cleanup st) = cleanup st :=
  cleanup_of_clean (cleanup st) (cleanup_isActive st)
    (cleanup_highlightedElement st) (cleanup_previewElement st)
    (cleanup_clickHandler st) (cleanup_windowListeners st)
    (cleanup_reconnectTimer st) (cleanup_reconnectAttempts st)

theorem styleInv_handleMessage (root : DomNode) (st : PageState) (m : Msg)
    (h : StyleInv st) : StyleInv (handleMessage root st m).1 := by
  cases m with
  | activateExtension =>
    exact styleInv_of_eq st _ (by simp [handleMessage]) (by simp [handleMessage])
      (by simp [handleMessage]) h
  | deactivateExtension => exact styleInv_cleanup st h
  | getInitialDom =>
    by_cases ha : st.isActive <;>
      simp only [handleMessage, ha, Bool.not_true, Bool.not_false,
        Bool.false_eq_true, if_false, if_true] <;>
      exact styleInv_of_eq st _ (by rfl) (by rfl) (by rfl) h
  | selectElement path =>
    by_cases ha : st.isActive
    · simp only [handleMessage, ha, Bool.not_true, Bool.false_eq_true, if_false]
      cases hfe : findElementByPath root path with
      | none => exact h
      | some e =>
        by_cases hh : isHTMLElement e
        · simp only [hh, if_true]
          exact styleInv_of_eq (highlightElement st (euid e)) _ (by rfl) (by rfl) (by rfl)
            (styleInv_highlightElement st (euid e) h)
        · simp only [hh, Bool.false_eq_true, if_false]
          exact h
    · simp only [handleMessage, ha, Bool.not_false, if_true]
      exact h
  | previewElement path =>
    by_cases ha : st.isActive
    · simp only [handleMessage, ha, Bool.not_true, Bool.false_eq_true, if_false]
      cases hfe : findElementByPath root path with
      | none => exact h
      | some e =>
        by_cases hh : isHTMLElement e
        · simp only [hh, if_true]
          exact styleInv_previewHighlight st (euid e) h
        · simp only [hh, Bool.false_eq_true, if_false]
          exact h
    · simp only [handleMessage, ha, Bool.not_false, if_true]
      exact h
  | clearPreview =>
    by_cases ha : st.isActive
    · simp only [handleMessage, ha, Bool.not_true, Bool.false_eq_true, if_false]
      have h1 := styleInv_removePreview st h
      cases hh : (removePreview st).highlightedElement with
      | none => simpa [hh] using h1
      | some v =>
        simpa [hh] using styleInv_highlightElement (removePreview st) v h1
    · simp only [handleMessage, ha, Bool.not_false, if_true]
      exact h
  | cleanupExtension => exact styleInv_cleanup st h
  | unknown t => exact h

theorem styleInv_handleClick (root : DomNode) (st : PageState) (e : DomNode)
    (h : StyleInv st) : StyleInv (handleClick root st e) := by
  by_cases ha : st.isActive
  · by_cases hh : isHTMLElement e
    · simp only [handleClick, ha, hh, Bool.not_true, Bool.false_eq_true,
        if_false, if_true]
      exact styleInv_of_eq (highlightElement st (euid e)) _ (by rfl) (by rfl) (by rfl)
        (styleInv_highlightElement st (euid e) h)
    · simp only [handleClick, ha, hh, Bool.not_true, Bool.false_eq_true, if_false]
      exact h
  · simp only [handleClick, ha, Bool.not_false, if_true]
    exact h

theorem styleInv_attemptReconnect (st : PageState) (h : StyleInv st) :
    StyleInv (attemptReconnect st) := by
  unfold attemptReconnect
  split
  · exact styleInv_cleanup st h
  · exact styleInv_of_eq st _ (by rfl) (by rfl) (by rfl) h

theorem styleInv_connectToBackground (st : PageState) (h : StyleInv st) :
    StyleInv (connectToBackground st) := by
  simp only [connectToBackground]
  split <;> exact styleInv_of_eq st _ (by rfl) (by rfl) (by rfl) h

/-- Every reachable session state satisfies the styling invariant. -/
theorem reachable_styleInv (st : PageState) (h : Reachable st) : StyleInv st := by
  induction h with
  | init => intro u hu; exact absurd rfl hu
  | msg st root m _ ih => exact styleInv_handleMessage root st m ih
  | click st root e _ ih => exact styleInv_handleClick root st e ih
  | reconnect st _ ih => exact styleInv_attemptReconnect st ih
  | connect st _ ih => exact styleInv_connectToBackground st ih
  | lifecycle st _ ih => exact styleInv_cleanup st ih

/-- C7: from every reachable session state, `cleanup` results in
`isActive = false`, no highlighted element, no previewed element, and no
element retaining any outline styling; it is idempotent; and the
`CLEANUP_EXTENSION` message runs it unconditionally (no activity gate) with
a success acknowledgment. -/
theorem cleanup_spec (st : PageState) (root : DomNode) (h : Reachable st) :
    (cleanup st).isActive = false ∧
    (cleanup st).highlightedElement = none ∧
    (cleanup st).previewElement = none ∧
    (∀ u, (cleanup st).styles u = noStyle) ∧
    cleanup (cleanup st) = cleanup st ∧
    handleMessage root st Msg.cleanupExtension = (cleanup st, ⟨true, none⟩) :=
  ⟨cleanup_isActive st, cleanup_highlightedElement st, cleanup_previewElement st,
   cleanup_styles st (reachable_styleInv st h), cleanup_cleanup st, rfl⟩

/-- Witness for `cleanup_spec` at the initial state. -/
theorem cleanup_spec_witness :
    (cleanup initState).isActive = false ∧
    (cleanup initState).highlightedElement = none ∧
    (cleanup initState).previewElement = none ∧
    (∀ u, (cleanup initState).styles u = noStyle) ∧
    cleanup (cleanup initState) = cleanup initState ∧
    handleMessage egRoot initState Msg.cleanupExtension =
      (cleanup initState, ⟨true, none⟩) :=
  cleanup_spec initState egRoot Reachable.init

/-- C6: from a reachable state with a fresh connection
(`reconnectAttempts = 0`), each of the first three reconnection attempts
increments the counter (so at most 3 attempts are made); the fourth
consecutive drop exceeds the bound and runs `cleanup`, ending inactive with
all highlight styling removed and no further reconnection timer scheduled.
The bound is the constant 3 and the inter-attempt delay the constant
2000 ms. -/
theorem reconnect_bound (st : PageState) (h : Reachable st)
    (h0 : st.reconnectAttempts = 0) :
    (attemptReconnect st).reconnectAttempts = 1 ∧
    (attemptReconnect (attemptReconnect st)).reconnectAttempts = 2 ∧
    (attemptReconnect (attemptReconnect (attemptReconnect st))).reconnectAttempts = 3 ∧
    ((attemptReconnect^[4] st).isActive = false ∧
     (attemptReconnect^[4] st).highlightedElement = none ∧
     (attemptReconnect^[4] st).previewElement = none ∧
     (∀ u, (attemptReconnect^[4] st).styles u = noStyle) ∧
     (attemptReconnect^[4] st).reconnectTimer = false) ∧
    MAX_RECONNECT_ATTEMPTS = 3 ∧ RECONNECT_DELAY = 2000 := by
  have e1 : attemptReconnect st =
      { st with reconnectAttempts := 1, reconnectTimer := true } := by
    simp [attemptReconnect, MAX_RECONNECT_ATTEMPTS, h0]
  have e2 : attemptReconnect (attemptReconnect st) =
      { st with reconnectAttempts := 2, reconnectTimer := true } := by
    rw [e1]
    simp [attemptReconnect, MAX_RECONNECT_ATTEMPTS]
  have e3 : attemptReconnect (attemptReconnect (attemptReconnect st)) =
      { st with reconnectAttempts := 3, reconnectTimer := true } := by
    rw [e2]
    simp [attemptReconnect, MAX_RECONNECT_ATTEMPTS]
  have st3inv : StyleInv { st with reconnectAttempts := 3, reconnectTimer := true } :=
    styleInv_of_eq st _ rfl rfl rfl (reachable_styleInv st h)
  have e4 : attemptReconnect^[4] st =
      cleanup { st with reconnectAttempts := 3, reconnectTimer := true } := by
    show attemptReconnect (attemptReconnect (attemptReconnect (attemptReconnect st))) = _
    rw [e3]
    simp [attemptReconnect, MAX_RECONNECT_ATTEMPTS]
  refine ⟨by rw [e1], by rw [e2], by rw [e3], ?_, rfl, rfl⟩
  rw [e4]
  exact ⟨cleanup_isActive _, cleanup_highlightedElement _, cleanup_previewElement _,
    cleanup_styles _ st3inv, cleanup_reconnectTimer _⟩

/-- Witness for `reconnect_bound` at the initial state. -/
theorem reconnect_bound_witness :
    (attemptReconnect^[4] initState).isActive = false ∧
    (attemptReconnect^[4] initState).reconnectTimer = false ∧
    (attemptReconnect (attemptReconnect (attemptReconnect initState))).reconnectAttempts = 3 := by
  have h := reconnect_bound initState Reachable.init rfl
  exact ⟨h.2.2.2.1.1, h.2.2.2.1.2.2.2.2, h.2.2.1⟩

/-! ### Claim theorems: the highlight/preview state machine -/

/-- C2 (counterexample): after the operation sequence
`highlightElement(1); previewHighlight(1)` both `highlightedElement` and
`previewElement` point at node 1 — `previewHighlight` applied to the
currently highlighted node leaves both roles on it, refuting the claimed
invariant. -/
theorem preview_highlight_same_node_counterexample :
    (previewHighlight (highlightElement initState 1) 1).highlightedElement = some 1 ∧
    (previewHighlight (highlightElement initState 1) 1).previewElement = some 1 :=
  ⟨rfl, rfl⟩

/-- C2 (amended): `previewHighlight(N)` when `N` is the currently
highlighted node (and not already the previewed node) leaves both
`highlightedElement` and `previewElement` pointing at `N`; the two
references can therefore coincide. -/
theorem previewHighlight_on_highlighted (st : PageState) (u : Nat)
    (hh : st.highlightedElement = some u) (hp : st.previewElement ≠ some u) :
    (previewHighlight st u).highlightedElement = some u ∧
    (previewHighlight st u).previewElement = some u := by
  simp [previewHighlight, hp, hh]

/-- Witness for `previewHighlight_on_highlighted` at a concrete state. -/
theorem previewHighlight_on_highlighted_witness :
    (highlightElement initState 1).highlightedElement = some 1 ∧
    (highlightElement initState 1).previewElement ≠ some 1 ∧
    ((previewHighlight (highlightElement initState 1) 1).highlightedElement = some 1 ∧
     (previewHighlight (highlightElement initState 1) 1).previewElement = some 1) :=
  ⟨rfl, by decide,
   previewHighlight_on_highlighted (highlightElement initState 1) 1 rfl (by decide)⟩

/-- C3 (code evaluated at the failing input): on the example document,
after `ACTIVATE_EXTENSION`, `SELECT_ELEMENT [0]`, `PREVIEW_ELEMENT [0]`
(preview lands on the highlighted node) and `CLEAR_PREVIEW`, the highlighted
node 1 is left with *no* outline styling: the defensive
`highlightElement(highlightedElement)` in the `CLEAR_PREVIEW` handler is a
no-op because of the early return `if (element === highlightedElement)`, so
the solid treatment is not reapplied, contradicting the claim. -/
theorem clearPreview_leaves_highlight_unstyled :
    ((runMsgs egRoot initState [Msg.activateExtension, Msg.selectElement [0],
        Msg.previewElement [0], Msg.clearPreview]).highlightedElement = some 1) ∧
    ((runMsgs egRoot initState [Msg.activateExtension, Msg.selectElement [0],
        Msg.previewElement [0], Msg.clearPreview]).previewElement = none) ∧
    ((runMsgs egRoot initState [Msg.activateExtension, Msg.selectElement [0],
        Msg.previewElement [0], Msg.clearPreview]).styles 1 = noStyle) :=
  ⟨rfl, rfl, rfl⟩

/-! ### Claim theorems: serialization -/

theorem serializeDOMElement_path (e : DomNode) (p : List Int) :
    (serializeDOMElement e p).path = p := by
  cases e <;> simp [serializeDOMElement]

theorem serializeKids_length (l : List DomNode) :
    ∀ (p : List Int) (i : Nat), (serializeKids p i l).length = l.length := by
  induction l with
  | nil => intro p i; simp [serializeKids]
  | cons c cs ih => intro p i; simp [serializeKids, ih p (i + 1)]

theorem serializeKids_getElem (l : List DomNode) :
    ∀ (p : List Int) (i k : Nat),
      (serializeKids p i l)[k]? =
        (l[k]?).map (fun c => serializeDOMElement c (p ++ [((i + k : Nat) : Int)])) := by
  induction l with
  | nil => intro p i k; simp [serializeKids]
  | cons c cs ih =>
    intro p i k
    cases k with
    | zero => simp [serializeKids]
    | succ k2 =>
      have harith : i + 1 + k2 = i + (k2 + 1) := by omega
      simp only [serializeKids, List.getElem?_cons_succ, ih p (i + 1) k2, harith]

/-- The serialized children of an element node are the serializations of the
element-only child collection. -/
theorem serializeDOMElement_children (u : Nat) (t ia : String)
    (cl : List String) (h : Bool) (kids : List DomNode) (p : List Int) :
    (serializeDOMElement (.element u t ia cl h kids) p).children =
      serializeKids p 0 (kids.filter isElementNode) := by
  simp [serializeDOMElement]

/-- C9: `serializeDOMElement(element, path)` returns a snapshot whose `path`
field is the given path; whose `children` list has exactly one entry per
element-type child of the node (text and comment nodes excluded), in
document order, each entry being the serialization of the corresponding
element child; whose `i`-th child carries path `path ++ [i]`; and the
serialization mutates no live-node state (sending a `DOM_ELEMENT_UPDATE`
leaves the styling and the session references untouched, only appending to
the outgoing event log). -/
theorem serializeDOMElement_spec (e : DomNode) (p : List Int) :
    (serializeDOMElement e p).path = p ∧
    (serializeDOMElement e p).children.length =
      ((childNodesOf e).filter isElementNode).length ∧
    (∀ i : Nat, (serializeDOMElement e p).children[i]? =
      (((childNodesOf e).filter isElementNode)[i]?).map
        (fun c => serializeDOMElement c (p ++ [(i : Int)]))) ∧
    (∀ i : Nat, ((serializeDOMElement e p).children[i]?).map DOMElement.path =
      (((childNodesOf e).filter isElementNode)[i]?).map (fun _ => p ++ [(i : Int)])) ∧
    (∀ (st : PageState) (path2 : List Int),
      (sendDOMUpdate st e path2).styles = st.styles ∧
      (sendDOMUpdate st e path2).highlightedElement = st.highlightedElement ∧
      (sendDOMUpdate st e path2).previewElement = st.previewElement ∧
      (sendDOMUpdate st e path2).isActive = st.isActive ∧
      (sendDOMUpdate st e path2).events =
        st.events ++ [serializeDOMElement e path2]) := by
  have hch : ∀ i : Nat, (serializeDOMElement e p).children[i]? =
      (((childNodesOf e).filter isElementNode)[i]?).map
        (fun c => serializeDOMElement c (p ++ [(i : Int)])) := by
    intro i
    cases e with
    | element u t ia cl h kids =>
      rw [serializeDOMElement_children, serializeKids_getElem]
      simp [childNodesOf]
    | text s => simp [serializeDOMElement, childNodesOf]
    | comment s => simp [serializeDOMElement, childNodesOf]
  refine ⟨serializeDOMElement_path e p, ?_, hch, ?_, ?_⟩
  · cases e with
    | element u t ia cl h kids =>
      rw [serializeDOMElement_children, serializeKids_length]
      simp [childNodesOf]
    | text s => simp [serializeDOMElement, childNodesOf]
    | comment s => simp [serializeDOMElement, childNodesOf]
  · intro i
    rw [hch i]
    cases hci : ((childNodesOf e).filter isElementNode)[i]? with
    | none => simp
    | some c => simp [serializeDOMElement_path]
  · intro st path2
    exact ⟨rfl, rfl, rfl, rfl, rfl⟩

/-! ### Claim theorems: message handling -/

/-- C4: a `SELECT_ELEMENT` command received while `isActive` is `false` is
acknowledged with `{ success: false, error: 'Extension not active' }` and
the whole session state — in particular `isActive`, `highlightedElement`,
`previewElement` and the emitted-event log — is unchanged. -/
theorem selectElement_inactive_rejected (root : DomNode) (st : PageState)
    (path : List Int) (h : st.isActive = false) :
    handleMessage root st (Msg.selectElement path) =
      (st, ⟨false, some "Extension not active"⟩) := by
  simp [handleMessage, h]

/-- Witness for `selectElement_inactive_rejected` at the initial state. -/
theorem selectElement_inactive_rejected_witness :
    initState.isActive = false ∧
    handleMessage egRoot initState (Msg.selectElement [0]) =
      (initState, ⟨false, some "Extension not active"⟩) :=
  ⟨rfl, selectElement_inactive_rejected egRoot initState [0] rfl⟩

/-- C5: a `SELECT_ELEMENT` command whose path does not resolve leaves the
whole state (in particular `highlightedElement` and the event log)
unchanged while acknowledging success; moreover a negative index or an
out-of-range index at any step makes the lookup loop return `null`
immediately. -/
theorem selectElement_unresolvable_noop (root : DomNode) (st : PageState)
    (path : List Int) (hact : st.isActive = true)
    (hfind : findElementByPath root path = none) :
    handleMessage root st (Msg.selectElement path) = (st, ⟨true, none⟩) ∧
    (∀ (e : DomNode) (i : Int) (rest : List Int), i < 0 →
      findLoop e (i :: rest) = none) ∧
    (∀ (e : DomNode) (i : Int) (rest : List Int),
      (((childrenOf e).filter isElementNode).length : Int) ≤ i →
      findLoop e (i :: rest) = none) := by
  refine ⟨by simp [handleMessage, hact, hfind], ?_, ?_⟩
  · intro e i rest hi
    have hcond : ¬(0 ≤ i ∧ i < (((childrenOf e).filter isElementNode).length : Int)) := by
      omega
    simp only [findLoop]
    exact if_neg hcond
  · intro e i rest hi
    have hcond : ¬(0 ≤ i ∧ i < (((childrenOf e).filter isElementNode).length : Int)) := by
      omega
    simp only [findLoop]
    exact if_neg hcond

/-- Witness for `selectElement_unresolvable_noop`: index 7 is out of range
at the root of the example document. -/
theorem selectElement_unresolvable_noop_witness :
    (handleMessage egRoot { initState with isActive := true } (Msg.selectElement [7])).1.highlightedElement =
      initState.highlightedElement :=
  by rw [(selectElement_unresolvable_noop egRoot { initState with isActive := true } [7] rfl rfl).1]

/-- C8: `highlightElement` is idempotent — a second consecutive call with
the same node returns the state of the first call unchanged, and in
particular performs no additional `scrollIntoView` (the scroll log is
unchanged). -/
theorem highlightElement_idempotent (st : PageState) (u : Nat) :
    highlightElement (highlightElement st u) u = highlightElement st u ∧
    (highlightElement (highlightElement st u) u).scrollLog =
      (highlightElement st u).scrollLog := by
  have h : highlightElement (highlightElement st u) u = highlightElement st u :=
    highlightElement_of_highlighted (highlightElement st u) u
      (highlightElement_highlightedElement st u)
  exact ⟨h, by rw [h]⟩

/-- C10: while active, a `SELECT_ELEMENT` or `PREVIEW_ELEMENT` command whose
path fails to resolve, or resolves to a node that is not an `HTMLElement`,
is still acknowledged with `{ success: true }` — the acknowledgment does not
distinguish resolution failure from success. -/
theorem pathFailure_acknowledged_success (root : DomNode) (st : PageState)
    (path : List Int) (hact : st.isActive = true)
    (hres : ∀ e, findElementByPath root path = some e → isHTMLElement e = false) :
    (handleMessage root st (Msg.selectElement path)).2 = ⟨true, none⟩ ∧
    (handleMessage root st (Msg.previewElement path)).2 = ⟨true, none⟩ := by
  constructor <;>
  · simp only [handleMessage, hact, Bool.not_true, Bool.false_eq_true, if_false]
    cases hfe : findElementByPath root path with
    | none => rfl
    | some e => simp [hres e hfe]

/-- Witness for `pathFailure_acknowledged_success`: path `[9]` does not
resolve on the example document. -/
theorem pathFailure_acknowledged_success_witness :
    (handleMessage egRoot { initState with isActive := true } (Msg.selectElement [9])).2 =
      ⟨true, none⟩ :=
  (pathFailure_acknowledged_success egRoot { initState with isActive := true } [9] rfl
    (by intro e he
        rw [show findElementByPath egRoot [9] = none from rfl] at he
        cases he)).1
